import Mathlib

/-!
Verification development for the `bdk-examples` repository: the YAML book
(`yaml_book/book.py`), the Twilio SMS filter visitor
(`twilio_book/sms_message_filter.py`) and the Twilio book's paginated read
(`twilio_book/twilio_book.py`).

Python dictionaries are modelled as insertion-ordered association lists with
string keys; YAML scalar values are modelled as null / string / integer /
boolean.  Methods that may raise return `Except`; methods that both mutate
the node and may raise return the error outcome together with the post-state
of the node's mapping, with the post-state of each branch read off from the
mutations that the Python source performed on that path (a `raise` aborts
the method before any further mutation).
-/

set_option autoImplicit false

namespace BdkExamples

/-- A YAML value as produced by `yaml.safe_load`: `None`, a scalar, a
sequence, or a string-keyed mapping (modelled as an insertion-ordered
association list, mirroring a Python `dict`). -/
inductive YVal where
  | null : YVal
  | str (s : String) : YVal
  | int (n : Int) : YVal
  | bool (b : Bool) : YVal
  | seq (items : List YVal) : YVal
  | map (entries : List (String × YVal)) : YVal
  deriving Repr

/-- The mapping wrapped by a `YAMLConcept`: a Python `dict` with string
keys, modelled as an insertion-ordered association list. -/
abbrev YMap := List (String × YVal)

/-- Python `str.lower()` (character-wise lowercasing; agrees with Python on
the ASCII keys the book manipulates). -/
def pyLower (s : String) : String := ⟨s.data.map Char.toLower⟩

/-- `m[key]` on a Python dict: the value stored at `key` (first entry with
that exact key). -/
def dictGet (m : YMap) (key : String) : Option YVal :=
  match m with
  | [] => none
  | e :: rest => if e.1 = key then some e.2 else dictGet rest key

/-- `key in m` on a Python dict. -/
def dictHasKey (m : YMap) (key : String) : Bool :=
  m.any (fun e => e.1 = key)

/-- `m[key] = v` on a Python dict: update in place when the key exists
(keeping its position), otherwise append the new entry at the end. -/
def dictSet (m : YMap) (key : String) (v : YVal) : YMap :=
  if dictHasKey m key then
    m.map (fun e => if e.1 = key then (e.1, v) else e)
  else
    m ++ [(key, v)]

/-- `m.pop(key)` on a Python dict: remove the entry stored at `key`. -/
def dictPop (m : YMap) (key : String) : YMap :=
  match m with
  | [] => []
  | e :: rest => if e.1 = key then rest else e :: dictPop rest key

/-- The case-insensitive key resolution shared by `has`/`get`/`set`/`delete`:
`[value_key for value_key in self.value.keys() if key.lower() == value_key.lower()][0]`,
i.e. the first existing entry whose lower-cased key equals the lower-cased
query key. -/
def findCaseInsensitive (m : YMap) (key : String) : Option (String × YVal) :=
  m.find? (fun e => pyLower key = pyLower e.1)

/-- The values handed to and received from the `YAMLConcept` accessors
(`YAMLValue` in the source): scalars pass through, a nested mapping is
exposed as a `YAMLConcept` (wrapping an optional dict), sequences are
handled element-wise. -/
inductive WVal where
  | null : WVal
  | str (s : String) : WVal
  | int (n : Int) : WVal
  | bool (b : Bool) : WVal
  | concept (value : Option YMap) : WVal
  | seq (items : List WVal) : WVal
  deriving Repr

mutual
/-- `wrap` from `YAMLConcept.get`: a dict becomes `YAMLConcept(item)`, a
list is wrapped element-wise, everything else passes through. -/
def wrap : YVal → WVal
  | .null => .null
  | .str s => .str s
  | .int n => .int n
  | .bool b => .bool b
  | .map m => .concept (some m)
  | .seq l => .seq (wrapList l)

/-- Element-wise `wrap` of a YAML sequence. -/
def wrapList : List YVal → List WVal
  | [] => []
  | v :: rest => wrap v :: wrapList rest
end

mutual
/-- `unwrap` from `YAMLConcept.set`: a `YAMLConcept` becomes its wrapped
value (`None` turning into YAML null), a list is unwrapped element-wise,
everything else passes through. -/
def unwrap : WVal → YVal
  | .null => .null
  | .str s => .str s
  | .int n => .int n
  | .bool b => .bool b
  | .concept none => .null
  | .concept (some m) => .map m
  | .seq l => .seq (unwrapList l)

/-- Element-wise `unwrap` of a sequence value. -/
def unwrapList : List WVal → List YVal
  | [] => []
  | v :: rest => unwrap v :: unwrapList rest
end

namespace YAMLConcept

/-- `YAMLConcept.to_bytes`, parametrised by the PyYAML mapping encoder
`yaml.safe_dump`: empty bytes when no mapping is wrapped, otherwise the
encoder's output (bytes are modelled as their UTF-8 string). -/
def to_bytes (dump : YMap → String) (value : Option YMap) : String :=
  match value with
  | none => ""
  | some m => dump m

/-- `YAMLConcept.from_bytes`, parametrised by the PyYAML decoder
`yaml.safe_load`: empty input wraps no mapping, otherwise the decoder's
result is wrapped. -/
def from_bytes (load : String → Option YMap) (data : String) : Option YMap :=
  if data = "" then none else load data

/-- `yaml.safe_dump(value, io)` on an optional top-level value: PyYAML
serialises the Python `None` document as the scalar document
`null\n...\n`; a mapping goes through the mapping encoder. -/
def safe_dump_doc (dump : YMap → String) (value : Option YMap) : String :=
  match value with
  | none => "null\n...\n"
  | some m => dump m

/-- `YAMLConcept.to_stream`: unconditionally dumps `self.value` into a
fresh stream (the stream's final contents are returned); unlike
`to_bytes` there is no `None` guard. -/
def to_stream (dump : YMap → String) (value : Option YMap) : String :=
  safe_dump_doc dump value

/-- `YAMLConcept.has`. -/
def has (value : Option YMap) (key : String) (case_sensitive : Bool) : Bool :=
  match value with
  | none => false
  | some m =>
    if case_sensitive then dictHasKey m key
    else (m.map (fun e => pyLower e.1)).contains (pyLower key)

/-- `YAMLConcept.get`: raises `KeyError` (modelled as `.error`) when the
key — after case-insensitive resolution, when enabled — is absent or when
no mapping is wrapped; otherwise returns the wrapped value. -/
def get (value : Option YMap) (key : String) (case_sensitive : Bool) :
    Except Unit WVal :=
  match value with
  | none => .error ()
  | some m =>
    if case_sensitive then
      match dictGet m key with
      | some item => .ok (wrap item)
      | none => .error ()
    else
      match findCaseInsensitive m key with
      | some e =>
        match dictGet m e.1 with
        | some item => .ok (wrap item)
        | none => .error ()
      | none => .error ()

/-- `YAMLConcept.set` as a state transformer: the first component is the
outcome (`.error` models a raised `KeyError`), the second the node's
mapping after the call.  Every `raise` in the source happens before any
mutation, so the post-state on an error path is the original mapping. -/
def set (value : Option YMap) (key : String) (v : WVal)
    (case_sensitive : Bool) : Except Unit Unit × Option YMap :=
  match value with
  | none => (.error (), none)
  | some m =>
    if case_sensitive then
      (.ok (), some (dictSet m key (unwrap v)))
    else
      match findCaseInsensitive m key with
      | some e => (.ok (), some (dictSet m e.1 (unwrap v)))
      | none => (.error (), some m)

/-- `YAMLConcept.delete` as a state transformer, in the same style as
`set`. -/
def delete (value : Option YMap) (key : String) (case_sensitive : Bool) :
    Except Unit Unit × Option YMap :=
  match value with
  | none => (.error (), none)
  | some m =>
    if case_sensitive then
      if dictHasKey m key then (.ok (), some (dictPop m key))
      else (.error (), some m)
    else
      match findCaseInsensitive m key with
      | some e => (.ok (), some (dictPop m e.1))
      | none => (.error (), some m)

end YAMLConcept

/-! ## The deepmerge library's `always_merger`

`YAMLBook.merge` calls `deepmerge.always_merger.merge(yaml.value, another_yaml.value)`.
`always_merger` merges with the default type strategies — two dicts merge
recursively key by key (mutating the base dict in place), two lists are
concatenated (`base + nxt`), and any other combination falls back to
"override", which yields the incoming (`nxt`) value. -/

mutual
/-- `always_merger`'s value strategy on a pair of YAML values. -/
def mergeVal : YVal → YVal → YVal
  | .map b, .map n => .map (mergeMap b n)
  | .seq b, .seq n => .seq (b ++ n)
  | _, n => n

/-- `always_merger`'s dict strategy: walk the incoming dict's entries in
order; an absent key is inserted, a present key has its value merged
recursively. -/
def mergeMap : YMap → YMap → YMap
  | base, [] => base
  | base, (k, v) :: rest =>
    mergeMap
      (match dictGet base k with
       | some bv => dictSet base k (mergeVal bv v)
       | none => base ++ [(k, v)])
      rest
end

mutual
/-- Python `==` on two YAML values ("structural equality"): scalars compare
by value, sequences element-wise in order, and dicts by key set — equal
sizes and, for every key of the first, an entry of the second under the
same key with a structurally equal value (insertion order is ignored). -/
def structEqV : YVal → YVal → Bool
  | .null, .null => true
  | .str a, .str b => a = b
  | .int a, .int b => a = b
  | .bool a, .bool b => a = b
  | .seq a, .seq b => structEqSeq a b
  | .map a, .map b => a.length == b.length && structEqEntries a b
  | _, _ => false

/-- Element-wise structural equality of two sequences. -/
def structEqSeq : List YVal → List YVal → Bool
  | [], [] => true
  | a :: as, b :: bs => structEqV a b && structEqSeq as bs
  | _, _ => false

/-- Every entry of the first dict is present in the second dict with a
structurally equal value. -/
def structEqEntries : YMap → YMap → Bool
  | [], _ => true
  | (k, v) :: rest, m2 =>
    (match dictGet m2 k with
     | some v2 => structEqV v v2
     | none => false)
    && structEqEntries rest m2
end

/-- Python `==` on two dicts. -/
def structEqM (m1 m2 : YMap) : Bool :=
  m1.length == m2.length && structEqEntries m1 m2

namespace YAMLBook

/-- `YAMLBook.merge`: `always_merger.merge(yaml.value, another_yaml.value)`
followed by `return yaml`.  Only when both wrapped values are dicts does
`always_merger` mutate the receiver's dict in place; in every other case it
returns a fresh value that the book discards, so the receiver's mapping is
unchanged. -/
def merge (value other : Option YMap) : Option YMap :=
  match value, other with
  | some b, some n => some (mergeMap b n)
  | v, _ => v

/-- One step of the `for field_name in property.to_field_names()` loop in
`YAMLBook.set_property_to_value`: the first candidate name that passes the
case-insensitive `has` check is `set` case-insensitively and the loop
breaks; if no candidate matches, the loop falls through and the node is
returned unchanged. -/
def setPropertyLoop (value : Option YMap) (names : List String) (v : WVal) :
    Except Unit (Option YMap) :=
  match names with
  | [] => .ok value
  | fn :: rest =>
    if YAMLConcept.has value fn false then
      match YAMLConcept.set value fn v false with
      | (.ok _, v2) => .ok v2
      | (.error _, _) => .error ()
    else setPropertyLoop value rest v

/-- `YAMLBook.set_property_to_value`: a plain string property is `set`
case-sensitively; a `NounPhrase` property (represented by the candidate
field names its `to_field_names()` yields) runs the matching loop.  The
`.error` outcome models a `KeyError` escaping the procedure. -/
def set_property_to_value (value : Option YMap) (property : String ⊕ List String)
    (v : WVal) : Except Unit (Option YMap) :=
  match property with
  | .inl s =>
    match YAMLConcept.set value s v true with
    | (.ok _, v2) => .ok v2
    | (.error _, _) => .error ()
  | .inr names => setPropertyLoop value names v

end YAMLBook

/-! ## The Twilio SMS filter visitor (`sms_message_filter.py`) -/

/-- A noun phrase, as built by `NounPhrase.from_word_list`. -/
abbrev NounPhrase := List String

/-- `SENDER_NUMBER = NounPhrase.from_word_list(["sender", "number"])`. -/
def SENDER_NUMBER : NounPhrase := ["sender", "number"]

/-- `RECIPIENT_NUMBER = NounPhrase.from_word_list(["recipient", "number"])`. -/
def RECIPIENT_NUMBER : NounPhrase := ["recipient", "number"]

/-- `DATE_SENT = NounPhrase.from_word_list(["date", "sent"])`. -/
def DATE_SENT : NounPhrase := ["date", "sent"]

/-- The BDK's binary filter operators (the visitor special-cases the first
four and rejects every other one). -/
inductive FilterBinaryOperator where
  | equals
  | notEquals
  | greaterThan
  | greaterThanOrEquals
  | lessThan
  | lessThanOrEquals
  | and
  | or
  deriving Repr, DecidableEq

/-- A literal value carried by a `ValueExpression`: a string, an integer, or
a `datetime` (modelled as an integer timestamp). -/
inductive FilterValue where
  | str (s : String) : FilterValue
  | int (n : Int) : FilterValue
  | datetime (t : Int) : FilterValue
  deriving Repr, DecidableEq

/-- Python `str(...)` on the visitor's `current_value` slot
(`Optional[Any]`); the sender/recipient filters are strings, which pass
through unchanged. -/
def pyStr : Option FilterValue → String
  | none => "None"
  | some (.str s) => s
  | some (.int n) => toString n
  | some (.datetime t) => "datetime(" ++ toString t ++ ")"

/-- `isinstance(value, datetime)`. -/
def isDatetime : Option FilterValue → Bool
  | some (.datetime _) => true
  | _ => false

/-- The BDK filter expression tree: binary nodes, unary nodes, noun-phrase
references and literal values. -/
inductive FilterExpression where
  | binary (op : FilterBinaryOperator) (left right : FilterExpression)
  | unary (expr : FilterExpression)
  | nounPhrases (nps : List NounPhrase)
  | value (v : FilterValue)
  deriving Repr

/-- `ConceptScalarType` names the expected type in a `TypeMismatchError`. -/
inductive ConceptScalarType where
  | datetime
  | text
  deriving Repr, DecidableEq

/-- The exceptions the visitor raises: `ValueError` for an unsupported
operator, `ValueError` for an unsupported noun-phrase reference, and
`TypeMismatchError(field, expected)` for a non-datetime value in a
`date sent` comparison. -/
inductive FilterError where
  | unsupportedOperator (op : FilterBinaryOperator)
  | unsupportedNounPhrase (nps : List NounPhrase)
  | typeMismatch (field : String) (expected : ConceptScalarType)
  deriving Repr, DecidableEq

/-- The `SMSMessageFilter` visitor's state: the two shared traversal slots
and the five output slots, each starting at `values.unset`/`None`
(modelled as `none`). -/
structure SMSMessageFilter where
  current_noun_phrase : Option NounPhrase := none
  current_value : Option FilterValue := none
  recipient_number : Option String := none
  sender_number : Option String := none
  date_sent : Option Int := none
  date_sent_before : Option Int := none
  date_sent_after : Option Int := none
  deriving Repr, DecidableEq

namespace SMSMessageFilter

/-- `expression.accept(visitor)` for the `SMSMessageFilter` visitor: the
state after visiting the expression, or the exception raised during the
traversal.  A binary node visits its left then right child and then
dispatches on the operator; a unary node is a no-op; a value node fills the
`current_value` slot; a noun-phrases node validates against the allow-list
and fills the `current_noun_phrase` slot. -/
def visit (st : SMSMessageFilter) :
    FilterExpression → Except FilterError SMSMessageFilter
  | .binary op l r => do
    let st1 ← visit st l
    let st2 ← visit st1 r
    match op with
    | .equals =>
      if st2.current_noun_phrase = some SENDER_NUMBER then
        .ok { st2 with sender_number := some (pyStr st2.current_value) }
      else if st2.current_noun_phrase = some RECIPIENT_NUMBER then
        .ok { st2 with recipient_number := some (pyStr st2.current_value) }
      else if st2.current_noun_phrase = some DATE_SENT then
        match st2.current_value with
        | some (.datetime t) => .ok { st2 with date_sent := some t }
        | _ => .error (.typeMismatch "date_sent" .datetime)
      else
        .ok st2
    | .greaterThan =>
      if st2.current_noun_phrase = some DATE_SENT then
        match st2.current_value with
        | some (.datetime t) => .ok { st2 with date_sent_after := some t }
        | _ => .error (.typeMismatch "date_sent" .datetime)
      else
        .ok st2
    | .lessThan =>
      if st2.current_noun_phrase = some DATE_SENT then
        match st2.current_value with
        | some (.datetime t) => .ok { st2 with date_sent_before := some t }
        | _ => .error (.typeMismatch "date_sent" .datetime)
      else
        .ok st2
    | .and => .ok st2
    | other => .error (.unsupportedOperator other)
  | .unary _ => .ok st
  | .value v => .ok { st with current_value := some v }
  | .nounPhrases nps =>
    match nps with
    | [np] =>
      if np = SENDER_NUMBER ∨ np = RECIPIENT_NUMBER ∨ np = DATE_SENT then
        .ok { st with current_noun_phrase := some np }
      else
        .error (.unsupportedNounPhrase [np])
    | _ => .error (.unsupportedNounPhrase nps)

end SMSMessageFilter

/-! ## `TwilioBook.read_sms_messages` pagination (`twilio_book.py`) -/

/-- Python list slicing `xs[o:]` for an arbitrary integer start index. -/
def pySliceFrom {α : Type} (xs : List α) (o : Int) : List α :=
  if 0 ≤ o then xs.drop o.toNat
  else xs.drop (max ((xs.length : Int) + o) 0).toNat

/-- Python list slicing `xs[:l]` for an arbitrary integer stop index. -/
def pySliceTo {α : Type} (xs : List α) (l : Int) : List α :=
  if 0 ≤ l then xs.take l.toNat
  else xs.take (max ((xs.length : Int) + l) 0).toNat

/-- The tail of `TwilioBook.read_sms_messages`, after the provider returned
the filtered message list: slice off `offset` (when given), then truncate
to `limit` (when given), then convert each remaining provider message via
`SMSMessage.from_message_instance` (an abstract conversion `conv`). -/
def read_sms_messages {α β : Type} (messages : List α) (offset limit : Option Int)
    (conv : α → β) : List β :=
  let m1 := match offset with
            | some o => pySliceFrom messages o
            | none => messages
  let m2 := match limit with
            | some l => pySliceTo m1 l
            | none => m1
  m2.map conv

/-! ## Dictionary lemmas -/

/-- After `m[k] = x`, reading `m[k]` yields `x`. -/
theorem dictGet_dictSet_self (m : YMap) (k : String) (x : YVal) :
    dictGet (dictSet m k x) k = some x := by
  unfold dictSet
  by_cases h : dictHasKey m k
  · simp only [h, if_true]
    induction m with
    | nil => simp [dictHasKey] at h
    | cons e rest ih =>
      by_cases he : e.1 = k
      · simp [dictGet, he]
      · have hr : dictHasKey rest k := by
          simp [dictHasKey] at h ⊢
          rcases h with h | h
          · exact absurd h he
          · exact h
        simpa [dictGet, he] using ih hr
  · simp only [h, if_false]
    induction m with
    | nil => simp [dictGet]
    | cons e rest ih =>
      have he : ¬ e.1 = k := by
        intro hk
        exact h (by simp [dictHasKey, hk])
      have hr : ¬ dictHasKey rest k := by
        intro hk
        apply h
        simp [dictHasKey] at hk ⊢
        exact Or.inr hk
      simpa [dictGet, he] using ih hr

/-- The in-place update branch of `dictSet` leaves other keys unchanged. -/
theorem dictGet_map_update_ne (m : YMap) (k k2 : String) (x : YVal) (h : ¬ k = k2) :
    dictGet (m.map (fun e => if e.1 = k then (e.1, x) else e)) k2 = dictGet m k2 := by
  induction m with
  | nil => rfl
  | cons e rest ih =>
    by_cases he : e.1 = k
    · have hne : ¬ e.1 = k2 := by rw [he]; exact h
      simp [dictGet, he, hne, h, ih]
    · by_cases he2 : e.1 = k2
      · have hks : ¬ k2 = k := fun hh => h hh.symm
        simp [dictGet, he, he2, hks]
      · simp [dictGet, he, he2, ih]

/-- Appending an entry for a different key leaves a lookup unchanged. -/
theorem dictGet_append_single_ne (m : YMap) (k k2 : String) (x : YVal) (h : ¬ k = k2) :
    dictGet (m ++ [(k, x)]) k2 = dictGet m k2 := by
  induction m with
  | nil => simp [dictGet, h]
  | cons e rest ih => by_cases he : e.1 = k2 <;> simp [dictGet, he, ih]

/-- Appending an entry for an absent key makes it the looked-up value. -/
theorem dictGet_append_single_self (m : YMap) (k : String) (x : YVal)
    (h : dictGet m k = none) :
    dictGet (m ++ [(k, x)]) k = some x := by
  induction m with
  | nil => simp [dictGet]
  | cons e rest ih =>
    by_cases he : e.1 = k
    · simp [dictGet, he] at h
    · simp [dictGet, he] at h ⊢
      exact ih h

/-- `m[k] = x` leaves every other key's value unchanged. -/
theorem dictGet_dictSet_ne (m : YMap) (k k2 : String) (x : YVal) (h : ¬ k = k2) :
    dictGet (dictSet m k x) k2 = dictGet m k2 := by
  unfold dictSet
  by_cases hh : dictHasKey m k
  · simp [hh, dictGet_map_update_ne m k k2 x h]
  · simp [hh, dictGet_append_single_ne m k k2 x h]

/-- The in-place update branch of `dictSet` preserves the key list. -/
theorem map_update_keys (m : YMap) (k : String) (x : YVal) :
    (m.map (fun e => if e.1 = k then (e.1, x) else e)).map Prod.fst = m.map Prod.fst := by
  induction m with
  | nil => rfl
  | cons e rest ih => by_cases he : e.1 = k <;> simp [he, ih]

/-- Updating a present key preserves the dict's key list. -/
theorem dictSet_keys_of_has (m : YMap) (k : String) (x : YVal) (h : dictHasKey m k) :
    (dictSet m k x).map Prod.fst = m.map Prod.fst := by
  unfold dictSet
  rw [if_pos h]
  exact map_update_keys m k x

/-- The key that case-insensitive resolution finds is present in the dict. -/
theorem dictHasKey_of_findCI (m : YMap) (key : String) (e : String × YVal)
    (h : findCaseInsensitive m key = some e) : dictHasKey m e.1 = true := by
  have hm : e ∈ m := List.mem_of_find?_eq_some h
  simp only [dictHasKey, List.any_eq_true]
  exact ⟨e, hm, by simp⟩

/-- A key outside the dict's key list reads as absent. -/
theorem dictGet_eq_none_of_not_mem_keys (m : YMap) (k : String)
    (h : ¬ k ∈ m.map Prod.fst) : dictGet m k = none := by
  induction m with
  | nil => rfl
  | cons e rest ih =>
    simp only [List.map_cons, List.mem_cons, not_or] at h
    obtain ⟨h1, h2⟩ := h
    have he : ¬ e.1 = k := fun hk => h1 hk.symm
    simp [dictGet, he, ih h2]

/-- Case-insensitive resolution only depends on the lower-cased query key. -/
theorem findCaseInsensitive_congr (m : YMap) (k1 k2 : String)
    (h : pyLower k1 = pyLower k2) :
    findCaseInsensitive m k1 = findCaseInsensitive m k2 := by
  unfold findCaseInsensitive
  induction m with
  | nil => rfl
  | cons e rest ih => simp [List.find?, h, ih]

/-- Case-insensitive resolution returns an existing entry whose lower-cased
key matches the lower-cased query key. -/
theorem pyLower_mem_of_findCI (m : YMap) (key : String) (e : String × YVal)
    (h : findCaseInsensitive m key = some e) :
    e ∈ m ∧ pyLower key = pyLower e.1 := by
  refine ⟨List.mem_of_find?_eq_some h, ?_⟩
  have := List.find?_some h
  simpa using this

/-! ## Claims -/

/-- Claim C2 counterexample: in the mapping `{"movies": 1, "Movies": 2}` —
which contains the key `"Movies"` — the case-insensitive `get("MOVIES")`
resolves to the earlier key `"movies"` and returns `1`, not the value `2`
that `get("Movies", case_sensitive=True)` returns, and the case-insensitive
`delete("movies")` removes the `"movies"` entry while the `"Movies"` entry
survives. -/
theorem C2_counterexample :
    YAMLConcept.has (some [("movies", .int 1), ("Movies", .int 2)]) "movies" false = true
    ∧ YAMLConcept.get (some [("movies", .int 1), ("Movies", .int 2)]) "MOVIES" false
        = .ok (.int 1)
    ∧ YAMLConcept.get (some [("movies", .int 1), ("Movies", .int 2)]) "Movies" true
        = .ok (.int 2)
    ∧ YAMLConcept.get (some [("movies", .int 1), ("Movies", .int 2)]) "MOVIES" false
        ≠ YAMLConcept.get (some [("movies", .int 1), ("Movies", .int 2)]) "Movies" true
    ∧ YAMLConcept.delete (some [("movies", .int 1), ("Movies", .int 2)]) "movies" false
        = (.ok (), some [("Movies", .int 2)])
    ∧ dictGet [("Movies", .int 2)] "Movies" = some (.int 2) := by
  refine ⟨rfl, rfl, rfl, ?_, rfl, rfl⟩
  intro h
  rw [show YAMLConcept.get (some [("movies", .int 1), ("Movies", .int 2)]) "MOVIES" false
        = .ok (.int 1) from rfl,
      show YAMLConcept.get (some [("movies", .int 1), ("Movies", .int 2)]) "Movies" true
        = .ok (.int 2) from rfl] at h
  simp at h

/-- Claim C2 (amended): for a node whose mapping resolves the lower-cased
key `"movies"` to the entry `("Movies", v)` — in particular whenever
`"Movies"` is the first (e.g. the only) key case-folding to `"movies"` —
`has("movies")` case-insensitively is true, case-insensitive `get("MOVIES")`
agrees with case-sensitive `get("Movies")`, and case-insensitive
`delete("movies")` pops exactly the `"Movies"` entry; in general every
case-insensitive lookup resolves the query key to the first existing key
with an equal lower-cased name. -/
theorem C2_case_insensitive_resolution (m : YMap) (v : YVal)
    (hres : findCaseInsensitive m "movies" = some ("Movies", v))
    (hget : dictGet m "Movies" = some v) :
    YAMLConcept.has (some m) "movies" false = true
    ∧ YAMLConcept.get (some m) "MOVIES" false = YAMLConcept.get (some m) "Movies" true
    ∧ YAMLConcept.delete (some m) "movies" false = (.ok (), some (dictPop m "Movies"))
    ∧ (∀ (key : String) (e : String × YVal), findCaseInsensitive m key = some e →
         e ∈ m ∧ pyLower key = pyLower e.1) := by
  have hmem : ("Movies", v) ∈ m := List.mem_of_find?_eq_some hres
  refine ⟨?_, ?_, ?_, fun key e h => pyLower_mem_of_findCI m key e h⟩
  · simp only [YAMLConcept.has]
    have : pyLower "Movies" ∈ m.map (fun e => pyLower e.1) :=
      List.mem_map.mpr ⟨("Movies", v), hmem, rfl⟩
    have h2 : pyLower "movies" ∈ m.map (fun e => pyLower e.1) := by
      rw [show pyLower "movies" = pyLower "Movies" from rfl]
      exact this
    simpa [List.contains] using h2
  · have hcongr : findCaseInsensitive m "MOVIES" = findCaseInsensitive m "movies" :=
      findCaseInsensitive_congr m "MOVIES" "movies" rfl
    simp [YAMLConcept.get, hcongr, hres, hget]
  · simp [YAMLConcept.delete, hres]

/-- Witness for C2 at the mapping `{"Movies": 2}`. -/
theorem C2_witness :
    YAMLConcept.has (some [("Movies", .int 2)]) "movies" false = true
    ∧ YAMLConcept.get (some [("Movies", .int 2)]) "MOVIES" false
        = YAMLConcept.get (some [("Movies", .int 2)]) "Movies" true
    ∧ YAMLConcept.delete (some [("Movies", .int 2)]) "movies" false
        = (.ok (), some (dictPop [("Movies", .int 2)] "Movies"))
    ∧ (∀ (key : String) (e : String × YVal),
         findCaseInsensitive [("Movies", YVal.int 2)] key = some e →
           e ∈ [("Movies", YVal.int 2)] ∧ pyLower key = pyLower e.1) :=
  C2_case_insensitive_resolution [("Movies", .int 2)] (.int 2) rfl rfl

/-- Claim C3: case-sensitive `set` always upserts, storing the unwrapped
value under the exact key and never raising while a mapping is present;
case-insensitive `set` overwrites only an existing key with a matching
lower-cased name (never adding a key) and raises key-not-found when none
matches; with no mapping present `set` raises in both modes; and every
failing call leaves the node's mapping unmodified. -/
theorem C3_set_semantics :
    (∀ (m : YMap) (key : String) (v : WVal),
        YAMLConcept.set (some m) key v true = (.ok (), some (dictSet m key (unwrap v)))
        ∧ dictGet (dictSet m key (unwrap v)) key = some (unwrap v))
    ∧ (∀ (m : YMap) (key : String) (v : WVal) (e : String × YVal),
        findCaseInsensitive m key = some e →
          YAMLConcept.set (some m) key v false = (.ok (), some (dictSet m e.1 (unwrap v)))
          ∧ (dictSet m e.1 (unwrap v)).map Prod.fst = m.map Prod.fst)
    ∧ (∀ (m : YMap) (key : String) (v : WVal),
        findCaseInsensitive m key = none →
          YAMLConcept.set (some m) key v false = (.error (), some m))
    ∧ (∀ (key : String) (v : WVal) (cs : Bool),
        YAMLConcept.set none key v cs = (.error (), none))
    ∧ (∀ (value : Option YMap) (key : String) (v : WVal) (cs : Bool),
        (YAMLConcept.set value key v cs).1 = .error () →
          (YAMLConcept.set value key v cs).2 = value) := by
  refine ⟨?_, ?_, ?_, ?_, ?_⟩
  · intro m key v
    exact ⟨rfl, dictGet_dictSet_self m key (unwrap v)⟩
  · intro m key v e h
    refine ⟨by simp [YAMLConcept.set, h], ?_⟩
    exact dictSet_keys_of_has m e.1 (unwrap v) (dictHasKey_of_findCI m key e h)
  · intro m key v h
    simp [YAMLConcept.set, h]
  · intro key v cs
    rfl
  · intro value key v cs h
    match value with
    | none => rfl
    | some m =>
      match cs with
      | true => simp [YAMLConcept.set] at h
      | false =>
        simp only [YAMLConcept.set] at h ⊢
        cases hf : findCaseInsensitive m key with
        | some e => rw [hf] at h; simp at h
        | none => simp [hf]

/-- Witness for C3: a case-insensitive overwrite that resolves
`"MOVIES"` to the existing key `"Movies"`, and a case-insensitive set of an
absent key that fails and leaves the mapping `{"A": 1}` unchanged. -/
theorem C3_witness :
    (YAMLConcept.set (some [("Movies", .int 2)]) "MOVIES" (.str "x") false
      = (.ok (), some (dictSet [("Movies", .int 2)] "Movies" (unwrap (.str "x")))))
    ∧ YAMLConcept.set (some [("A", .int 1)]) "b" (.int 2) false
        = (.error (), some [("A", .int 1)]) :=
  ⟨(C3_set_semantics.2.1 [("Movies", .int 2)] "MOVIES" (.str "x") ("Movies", .int 2) rfl).1,
   C3_set_semantics.2.2.1 [("A", .int 1)] "b" (.int 2) rfl⟩

/-- Claim C1: for every mapping `M` of scalars, nested string-keyed mappings
and sequences thereof, `YAMLConcept.from_bytes (YAMLConcept(M).to_bytes())`
yields a node wrapping the mapping the YAML library round-trips `M` to,
which is structurally equal to `M` (the library contract
`safe_load(safe_dump(M)) == M`, with `safe_dump` never producing empty
output on a mapping, is taken as hypotheses); and deserialising empty bytes
wraps no mapping, whose serialisation is again empty bytes. -/
theorem C1_document_round_trip (dump : YMap → String) (load : String → Option YMap)
    (m m2 : YMap) (hdump : dump m ≠ "") (hload : load (dump m) = some m2)
    (hstruct : structEqM m m2 = true) :
    YAMLConcept.from_bytes load (YAMLConcept.to_bytes dump (some m)) = some m2
      ∧ structEqM m m2 = true
      ∧ YAMLConcept.from_bytes load "" = none
      ∧ YAMLConcept.to_bytes dump (YAMLConcept.from_bytes load "") = "" := by
  refine ⟨?_, hstruct, rfl, rfl⟩
  simp [YAMLConcept.to_bytes, YAMLConcept.from_bytes, hdump, hload]

/-- Witness for C1: the round trip at the concrete mapping `{"a": 1}` with a
concrete encoder/decoder pair satisfying the library contract there. -/
theorem C1_witness :
    YAMLConcept.from_bytes (fun _ => some [("a", .int 1)])
        (YAMLConcept.to_bytes (fun _ => "a: 1\n") (some [("a", .int 1)]))
      = some [("a", .int 1)]
      ∧ structEqM [("a", .int 1)] [("a", .int 1)] = true
      ∧ YAMLConcept.from_bytes (fun _ => some [("a", .int 1)]) "" = none
      ∧ YAMLConcept.to_bytes (fun _ => "a: 1\n")
          (YAMLConcept.from_bytes (fun _ => some [("a", .int 1)]) "") = "" :=
  C1_document_round_trip (fun _ => "a: 1\n") (fun _ => some [("a", .int 1)])
    [("a", .int 1)] [("a", .int 1)] (by decide) rfl rfl

/-- Merging a dict whose incoming entries never touch key `k` leaves the
lookup of `k` in the base unchanged. -/
theorem dictGet_mergeMap_of_none (n : YMap) : ∀ (b : YMap) (k : String),
    dictGet n k = none → dictGet (mergeMap b n) k = dictGet b k := by
  induction n with
  | nil => intro b k _; rfl
  | cons e rest ih =>
    intro b k h
    obtain ⟨k2, v2⟩ := e
    have hne : ¬ k2 = k := by
      intro hk
      simp [dictGet, hk] at h
    have hrest : dictGet rest k = none := by
      simpa [dictGet, hne] using h
    simp only [mergeMap]
    rw [ih _ k hrest]
    cases hb : dictGet b k2 with
    | some bv => simp [hb, dictGet_dictSet_ne b k2 k _ hne]
    | none => simp [hb, dictGet_append_single_ne b k2 k v2 hne]

/-- For a key present on both sides of `always_merger`'s dict merge (the
incoming dict having distinct keys, as every Python dict does), the merged
dict stores the recursive merge of the two values. -/
theorem dictGet_mergeMap_both (n : YMap) : ∀ (b : YMap) (k : String) (vb vn : YVal),
    (n.map Prod.fst).Nodup → dictGet b k = some vb → dictGet n k = some vn →
    dictGet (mergeMap b n) k = some (mergeVal vb vn) := by
  induction n with
  | nil =>
    intro b k vb vn _ _ hnk
    simp [dictGet] at hnk
  | cons e rest ih =>
    intro b k vb vn hn hb hnk
    obtain ⟨k2, v2⟩ := e
    simp only [List.map_cons, List.nodup_cons] at hn
    obtain ⟨hk2, hrest_nodup⟩ := hn
    simp only [mergeMap]
    by_cases hkk : k2 = k
    · subst hkk
      have hv : v2 = vn := by simpa [dictGet] using hnk
      rw [hb]
      have hrestnone : dictGet rest k2 = none :=
        dictGet_eq_none_of_not_mem_keys rest k2 hk2
      rw [dictGet_mergeMap_of_none rest _ k2 hrestnone]
      rw [dictGet_dictSet_self, hv]
    · have hrestk : dictGet rest k = some vn := by
        simpa [dictGet, hkk] using hnk
      cases hb2 : dictGet b k2 with
      | some bv =>
        exact ih (dictSet b k2 (mergeVal bv v2)) k vb vn hrest_nodup
          (by rw [dictGet_dictSet_ne b k2 k _ hkk]; exact hb) hrestk
      | none =>
        exact ih (b ++ [(k2, v2)]) k vb vn hrest_nodup
          (by rw [dictGet_append_single_ne b k2 k v2 hkk]; exact hb) hrestk

/-- Claim C4 counterexample: for a key held by both sides with sequence
values the other side's value does not win — `always_merger` concatenates
the two sequences. Merging `{"a": [1]}` into `{"a": [2]}` yields
`{"a": [2, 1]}`, not `{"a": [1]}`. -/
theorem C4_counterexample :
    YAMLBook.merge (some [("a", .seq [.int 2])]) (some [("a", .seq [.int 1])])
      = some [("a", .seq [.int 2, .int 1])]
    ∧ (some [("a", YVal.seq [.int 2, .int 1])] : Option YMap)
        ≠ some [("a", YVal.seq [.int 1])] := by
  refine ⟨rfl, ?_⟩
  intro h
  simp at h

/-- Claim C4 (amended): when both nodes wrap mappings, merge deep-merges the
other node's mapping into the receiver's mapping (the receiver is mutated
and returned): for keys present in both sides the incoming value is merged
recursively — two mappings merge recursively, two sequences are
concatenated (receiver's elements first), and for scalar values the other
side's value wins. Merging `{"a": {"x": 1}}` into `{"a": {"y": 2}}` yields
`{"a": {"x": 1, "y": 2}}` (structurally), and merging `{"a": 1}` into
`{"a": 2}` yields `{"a": 1}`. -/
theorem C4_merge_semantics :
    (∀ b n : YMap, YAMLBook.merge (some b) (some n) = some (mergeMap b n))
    ∧ (∀ (b n : YMap) (k : String) (vb vn : YVal),
        (n.map Prod.fst).Nodup → dictGet b k = some vb → dictGet n k = some vn →
          dictGet (mergeMap b n) k = some (mergeVal vb vn))
    ∧ (∀ mb mn, mergeVal (.map mb) (.map mn) = .map (mergeMap mb mn))
    ∧ (∀ xs ys, mergeVal (.seq xs) (.seq ys) = .seq (xs ++ ys))
    ∧ (∀ y, mergeVal .null y = y)
    ∧ (∀ s y, mergeVal (.str s) y = y)
    ∧ (∀ a y, mergeVal (.int a) y = y)
    ∧ (∀ a y, mergeVal (.bool a) y = y)
    ∧ structEqM
        (mergeMap [("a", .map [("y", .int 2)])] [("a", .map [("x", .int 1)])])
        [("a", .map [("x", .int 1), ("y", .int 2)])] = true
    ∧ mergeMap [("a", .int 2)] [("a", .int 1)] = [("a", .int 1)] := by
  refine ⟨fun b n => rfl,
          fun b n k vb vn hn hb hnk => dictGet_mergeMap_both n b k vb vn hn hb hnk,
          fun mb mn => rfl, fun xs ys => rfl,
          fun y => by cases y <;> rfl,
          fun s y => by cases y <;> rfl,
          fun a y => by cases y <;> rfl,
          fun a y => by cases y <;> rfl,
          rfl, rfl⟩

/-- Witness for C4: an overlapping scalar key, where the incoming value
wins. -/
theorem C4_witness :
    dictGet (mergeMap [("k", .int 0)] [("k", .str "w")]) "k"
      = some (mergeVal (.int 0) (.str "w")) :=
  C4_merge_semantics.2.1 [("k", .int 0)] [("k", .str "w")] "k" (.int 0) (.str "w")
    (by simp) rfl rfl

/-- Claim C5 counterexample: with the mapping absent, `to_stream` does not
produce an empty stream — `yaml.safe_dump(None, io)` writes the YAML null
document (the mapping encoder, here instantiated with a concrete function,
is never consulted on this path). -/
theorem C5_counterexample :
    YAMLConcept.to_stream (fun _ => "") none = "null\n...\n"
      ∧ YAMLConcept.to_stream (fun _ => "") none ≠ "" := by
  exact ⟨rfl, by decide⟩

/-- Claim C5 (amended): with the mapping absent, `to_bytes` returns empty
bytes, but `to_stream` has no absent-mapping guard and writes PyYAML's
encoding of the `None` document, `"null\n...\n"`, which is not empty. -/
theorem C5_serialize_absent_mapping (dump : YMap → String) :
    YAMLConcept.to_bytes dump none = ""
      ∧ YAMLConcept.to_stream dump none = "null\n...\n"
      ∧ YAMLConcept.to_stream dump none ≠ "" := by
  refine ⟨rfl, rfl, ?_⟩
  intro h
  have : ("null\n...\n" : String) = "" := h
  exact absurd this (by decide)

/-- Claim C6: visiting `sender number == s1 AND recipient number == s2`
from the fresh visitor state fills exactly the sender and recipient slots
and leaves the three date slots unset; visiting
`date sent > t1 AND date sent < t2` fills the lower bound with `t1` and the
upper bound with `t2` and leaves the exact-match date slot unset. -/
theorem C6_filter_visitor_slots (s1 s2 : String) (t1 t2 : Int) :
    SMSMessageFilter.visit {} (.binary .and
        (.binary .equals (.nounPhrases [SENDER_NUMBER]) (.value (.str s1)))
        (.binary .equals (.nounPhrases [RECIPIENT_NUMBER]) (.value (.str s2))))
      = .ok { current_noun_phrase := some RECIPIENT_NUMBER,
              current_value := some (.str s2),
              recipient_number := some s2,
              sender_number := some s1,
              date_sent := none,
              date_sent_before := none,
              date_sent_after := none }
    ∧ SMSMessageFilter.visit {} (.binary .and
        (.binary .greaterThan (.nounPhrases [DATE_SENT]) (.value (.datetime t1)))
        (.binary .lessThan (.nounPhrases [DATE_SENT]) (.value (.datetime t2))))
      = .ok { current_noun_phrase := some DATE_SENT,
              current_value := some (.datetime t2),
              recipient_number := none,
              sender_number := none,
              date_sent := none,
              date_sent_before := some t2,
              date_sent_after := some t1 } :=
  ⟨rfl, rfl⟩

/-- Claim C9: a greater-than or less-than comparison on the sender-number or
recipient-number field passes the allow-list, raises nothing, and leaves
every one of the five output slots unchanged — the comparison is silently
dropped. -/
theorem C9_number_range_comparison_dropped (st : SMSMessageFilter)
    (v : FilterValue) (op : FilterBinaryOperator) (p : NounPhrase)
    (hop : op = .greaterThan ∨ op = .lessThan)
    (hp : p = SENDER_NUMBER ∨ p = RECIPIENT_NUMBER) :
    SMSMessageFilter.visit st (.binary op (.nounPhrases [p]) (.value v))
      = .ok { st with current_noun_phrase := some p, current_value := some v }
    ∧ ∀ st2, SMSMessageFilter.visit st (.binary op (.nounPhrases [p]) (.value v))
          = .ok st2 →
        st2.sender_number = st.sender_number
        ∧ st2.recipient_number = st.recipient_number
        ∧ st2.date_sent = st.date_sent
        ∧ st2.date_sent_before = st.date_sent_before
        ∧ st2.date_sent_after = st.date_sent_after := by
  have heq : SMSMessageFilter.visit st (.binary op (.nounPhrases [p]) (.value v))
      = .ok { st with current_noun_phrase := some p, current_value := some v } := by
    rcases hop with h | h <;> rcases hp with h2 | h2 <;> subst h <;> subst h2 <;> rfl
  refine ⟨heq, ?_⟩
  intro st2 h2
  rw [heq] at h2
  cases h2
  exact ⟨rfl, rfl, rfl, rfl, rfl⟩

/-- Witness for C9: a greater-than comparison on the sender number with a
string literal, from the fresh visitor state. -/
theorem C9_witness :
    SMSMessageFilter.visit {}
        (.binary .greaterThan (.nounPhrases [SENDER_NUMBER]) (.value (.str "+1800")))
      = .ok { current_noun_phrase := some SENDER_NUMBER,
              current_value := some (.str "+1800") }
    ∧ ∀ st2, SMSMessageFilter.visit {}
          (.binary .greaterThan (.nounPhrases [SENDER_NUMBER]) (.value (.str "+1800")))
          = .ok st2 →
        st2.sender_number = ({} : SMSMessageFilter).sender_number
        ∧ st2.recipient_number = ({} : SMSMessageFilter).recipient_number
        ∧ st2.date_sent = ({} : SMSMessageFilter).date_sent
        ∧ st2.date_sent_before = ({} : SMSMessageFilter).date_sent_before
        ∧ st2.date_sent_after = ({} : SMSMessageFilter).date_sent_after :=
  C9_number_range_comparison_dropped {} (.str "+1800") .greaterThan SENDER_NUMBER
    (Or.inl rfl) (Or.inl rfl)

/-- Claim C7: the filter traversal raises — so no partial slot state is
consumed downstream — on a binary operator outside
{equals, greater-than, less-than, and} (a `ValueError` naming the
operator), on a field reference naming zero or several noun phrases or a
noun phrase outside the allow-list (a `ValueError` naming the offending
reference), and on an equals/greater-than/less-than comparison of the
date-sent field against a non-datetime value (a `TypeMismatchError` naming
`date_sent` and the expected datetime type). -/
theorem C7_filter_traversal_errors :
    (∀ (op : FilterBinaryOperator) (l r : FilterExpression)
       (st st1 st2 : SMSMessageFilter),
        SMSMessageFilter.visit st l = .ok st1 →
        SMSMessageFilter.visit st1 r = .ok st2 →
        op ≠ .equals → op ≠ .greaterThan → op ≠ .lessThan → op ≠ .and →
          SMSMessageFilter.visit st (.binary op l r)
            = .error (.unsupportedOperator op))
    ∧ (∀ (st : SMSMessageFilter) (nps : List NounPhrase), nps.length ≠ 1 →
          SMSMessageFilter.visit st (.nounPhrases nps)
            = .error (.unsupportedNounPhrase nps))
    ∧ (∀ (st : SMSMessageFilter) (np : NounPhrase),
        np ≠ SENDER_NUMBER → np ≠ RECIPIENT_NUMBER → np ≠ DATE_SENT →
          SMSMessageFilter.visit st (.nounPhrases [np])
            = .error (.unsupportedNounPhrase [np]))
    ∧ (∀ (st : SMSMessageFilter) (v : FilterValue) (op : FilterBinaryOperator),
        (op = .equals ∨ op = .greaterThan ∨ op = .lessThan) →
        isDatetime (some v) = false →
          SMSMessageFilter.visit st
              (.binary op (.nounPhrases [DATE_SENT]) (.value v))
            = .error (.typeMismatch "date_sent" .datetime)) := by
  refine ⟨?_, ?_, ?_, ?_⟩
  · intro op l r st st1 st2 h1 h2 hne1 hne2 hne3 hne4
    cases op <;>
      simp_all [SMSMessageFilter.visit, Except.bind, Bind.bind, Monad.toBind,
        Except.instMonad]
  · intro st nps h
    match nps with
    | [] => rfl
    | [np] => exact absurd rfl h
    | a :: b :: rest => rfl
  · intro st np h1 h2 h3
    simp [SMSMessageFilter.visit, h1, h2, h3]
  · intro st v op hop hdt
    rcases hop with h | h | h <;> subst h <;>
      cases v with
      | str s => rfl
      | int n => rfl
      | datetime t => simp [isDatetime] at hdt

/-- Witness for C7: an `or` conjunction of two literals, an empty
noun-phrase reference, a noun phrase outside the allow-list, and a
greater-than comparison of the date-sent field against a string. -/
theorem C7_witness :
    SMSMessageFilter.visit {} (.binary .or (.value (.str "x")) (.value (.str "y")))
      = .error (.unsupportedOperator .or)
    ∧ SMSMessageFilter.visit {} (.nounPhrases [])
        = .error (.unsupportedNounPhrase [])
    ∧ SMSMessageFilter.visit {} (.nounPhrases [["body"]])
        = .error (.unsupportedNounPhrase [["body"]])
    ∧ SMSMessageFilter.visit {}
        (.binary .greaterThan (.nounPhrases [DATE_SENT]) (.value (.str "oops")))
        = .error (.typeMismatch "date_sent" .datetime) :=
  ⟨C7_filter_traversal_errors.1 .or (.value (.str "x")) (.value (.str "y")) {}
      { current_value := some (.str "x") } { current_value := some (.str "y") }
      rfl rfl (by decide) (by decide) (by decide) (by decide),
   C7_filter_traversal_errors.2.1 {} [] (by decide),
   C7_filter_traversal_errors.2.2.1 {} ["body"] (by decide) (by decide) (by decide),
   C7_filter_traversal_errors.2.2.2 {} (.str "oops") .greaterThan
      (Or.inr (Or.inl rfl)) rfl⟩

/-- Claim C8: `read_sms_messages` slices the already-fetched list, offset
first then limit: on a 10-element list offset 3 with limit 4 keeps elements
3 through 6 (0-indexed, half-open); an offset at or beyond the list length
yields the empty list; omitted offset and limit skip and truncate nothing,
so both omitted returns the full list. -/
theorem C8_pagination :
    read_sms_messages [0,1,2,3,4,5,6,7,8,9] (some 3) (some 4) (id : Nat → Nat)
      = [3,4,5,6]
    ∧ (∀ (xs : List Nat) (o : Int) (lim : Option Int),
        0 ≤ o → (xs.length : Int) ≤ o →
          read_sms_messages xs (some o) lim (id : Nat → Nat) = [])
    ∧ (∀ xs : List Nat, read_sms_messages xs none none (id : Nat → Nat) = xs)
    ∧ (∀ (xs : List Nat) (o l : Int), 0 ≤ o → 0 ≤ l →
        read_sms_messages xs (some o) (some l) (id : Nat → Nat)
          = (xs.drop o.toNat).take l.toNat) := by
  refine ⟨rfl, ?_, ?_, ?_⟩
  · intro xs o lim h0 hlen
    have hdrop : xs.drop o.toNat = [] := by
      apply List.drop_eq_nil_of_le
      omega
    rcases lim with _ | l <;>
      simp [read_sms_messages, pySliceFrom, pySliceTo, h0, hdrop]
  · intro xs
    simp [read_sms_messages]
  · intro xs o l h0 hl
    simp [read_sms_messages, pySliceFrom, pySliceTo, h0, hl]

/-- Witness for C8: an offset beyond the end of a 3-element list yields the
empty list. -/
theorem C8_witness :
    read_sms_messages [1, 2, 3] (some 5) none (id : Nat → Nat) = [] :=
  C8_pagination.2.1 [1, 2, 3] 5 none (by decide) (by decide)

/-- The `for field_name in ...` loop of `set_property_to_value` falls
through unchanged when no candidate passes the case-insensitive `has`
check. -/
theorem setPropertyLoop_of_no_match (value : Option YMap) (names : List String)
    (v : WVal) (h : ∀ fn ∈ names, YAMLConcept.has value fn false = false) :
    YAMLBook.setPropertyLoop value names v = .ok value := by
  induction names with
  | nil => rfl
  | cons fn rest ih =>
    have hfn : YAMLConcept.has value fn false = false := h fn (by simp)
    have hrest : ∀ g ∈ rest, YAMLConcept.has value g false = false :=
      fun g hg => h g (by simp [hg])
    simp [YAMLBook.setPropertyLoop, hfn]
    exact ih hrest

/-- Claim C10: `set_property_to_value` with a noun-phrase property none of
whose candidate field names case-insensitively matches an existing key
raises nothing and returns the node with its mapping unchanged. -/
theorem C10_noun_phrase_set_silent_noop (value : Option YMap)
    (names : List String) (v : WVal)
    (h : ∀ fn ∈ names, YAMLConcept.has value fn false = false) :
    YAMLBook.set_property_to_value value (.inr names) v = .ok value :=
  setPropertyLoop_of_no_match value names v h

/-- Witness for C10: the mapping `{"a": 1}` with candidate names
`["movies", "films"]`, none of which matches. -/
theorem C10_witness :
    YAMLBook.set_property_to_value (some [("a", .int 1)])
        (.inr ["movies", "films"]) (.str "x") = .ok (some [("a", .int 1)]) :=
  C10_noun_phrase_set_silent_noop (some [("a", .int 1)]) ["movies", "films"]
    (.str "x") (by decide)

end BdkExamples
